import Mathlib

/-!
Shallow embedding of the ai-army-deploy repository (src/deploy_manager.py,
src/rollback.py, src/monitor.py) and proofs about its specification claims.

External effects are modelled by an explicit environment:
  * `Env.pathExists`  models `os.path.exists`,
  * `Env.runCmd`      models the outcome of `subprocess.run` for a given
                      command string and working directory,
  * `Env.http`        models the outcome of `requests.get url`,
  * `Env.now`         models the timestamp string `datetime.now().strftime ...`.
Wall-clock fields of result records (`time`, `timestamp`) are elided; the
remaining fields (`site`, `status`, `error`, `status_code`, `response_time`,
...) are kept.  Exceptions are modelled with `Except String`, and each
deployment function additionally returns the trace of operations it invoked
(`Op`): the command strings handed to `subprocess.run` and the URLs probed.
-/

namespace DeployManager

/-- A site descriptor, mirroring the fields of one entry of `config['sites']`
read by `deploy_manager.py`.  Optional JSON keys (`pre_deploy`, `post_deploy`,
`health_check_url`, `ssh_port`) are `Option`s; the credential fields that the
code reads unconditionally for its method are plain strings. -/
structure Site where
  name : String
  local_path : String
  remote_path : String
  deploy_method : String
  ftp_user : String
  ftp_pass : String
  ftp_host : String
  ssh_user : String
  ssh_host : String
  ssh_port : Option Nat
  git_remote : String
  git_branch : String
  pre_deploy : Option (List String)
  post_deploy : Option (List String)
  health_check_url : Option String
deriving DecidableEq, Repr

/-- Outcome of one `subprocess.run(cmd, shell=True, cwd=..., capture_output=True,
text=True, timeout=300)` call: a completed process with return code, stdout and
stderr; a `subprocess.TimeoutExpired` (the 300-second limit); or any other
exception raised by `subprocess.run` itself (e.g. an invalid `cwd`). -/
inductive CmdResult where
  | completed (returncode : Int) (stdout : String) (stderr : String)
  | timedOut
  | execError (msg : String)
deriving DecidableEq, Repr

/-- Outcome of one `requests.get(url, timeout=...)` call: a response carrying a
status code (with the measured elapsed milliseconds), or a raised exception
carrying a message. -/
inductive HttpOutcome where
  | resp (status_code : Nat) (elapsed_ms : Nat)
  | exn (msg : String)
deriving DecidableEq, Repr

/-- The ambient environment supplying the outcomes of all external effects. -/
structure Env where
  pathExists : String → Bool
  runCmd : String → Option String → CmdResult
  http : String → HttpOutcome
  now : String

/-- The error-classification core of `DeploymentManager.run_command`
(src/deploy_manager.py lines 152-175).  Inside the `try` block, a nonzero
return code raises `Exception("Command failed: " + stderr)`; that exception is
then caught by the trailing `except Exception` clause of the same `try` and
re-raised as `Exception("Command execution error: " + str(e))`.  A
`subprocess.TimeoutExpired` is caught by its dedicated clause and re-raised as
`Exception("Command timed out")` (raises from inside a handler are not caught
by later clauses).  Any other exception from `subprocess.run` is wrapped as
`Exception("Command execution error: " + msg)`.  On success the captured
stdout is returned. -/
def run_result (r : CmdResult) : Except String String :=
  match r with
  | CmdResult.completed rc out err =>
      if rc ≠ 0 then Except.error ("Command execution error: " ++ ("Command failed: " ++ err))
      else Except.ok out
  | CmdResult.timedOut => Except.error "Command timed out"
  | CmdResult.execError m => Except.error ("Command execution error: " ++ m)

/-- Classification of a health probe, mirroring the three logging branches of
`DeploymentManager.health_check`: status 200 logged as UP, a non-200 status
logged as a warning with the code, an exception logged as a warning with the
message. -/
inductive HCLog where
  | up
  | warn_status (code : Nat)
  | warn_failed (msg : String)
deriving DecidableEq, Repr

/-- One externally visible operation performed during a deployment: a command
string handed to `subprocess.run` (with its working directory), or a health
probe of a URL (with the advisory classification that was logged). -/
inductive Op where
  | run (cmd : String) (cwd : Option String)
  | probe (url : String) (log : HCLog)
deriving DecidableEq, Repr

/-- `DeploymentManager.run_command`: when `remote` is set and a site is given,
the command is rewritten to `ssh user@host 'cmd'`; the (rewritten) command is
then executed and its outcome classified by `run_result`.  The trace records
the final command string and working directory. -/
def run_command (env : Env) (cmd : String) (cwd : Option String) (remote : Bool)
    (site : Option Site) : Except String String × List Op :=
  let final :=
    if remote then
      match site with
      | some s => "ssh " ++ s.ssh_user ++ "@" ++ s.ssh_host ++ " \x27" ++ cmd ++ "\x27"
      | none => cmd
    else cmd
  (run_result (env.runCmd final cwd), [Op.run final cwd])

/-- A `for cmd in cmds: self.run_command(cmd, ...)` loop: commands run in
order; the first raised exception aborts the loop (later commands are not
invoked); the trace records every command that was invoked, including the
failing one. -/
def run_commands (env : Env) (cmds : List String) (cwd : Option String)
    (remote : Bool) (site : Option Site) : Except String Unit × List Op :=
  match cmds with
  | [] => (Except.ok (), [])
  | c :: rest =>
    match run_command env c cwd remote site with
    | (Except.error e, t) => (Except.error e, t)
    | (Except.ok _, t) =>
      let r := run_commands env rest cwd remote site
      (r.1, t ++ r.2)

/-- The `lftp` command string built by `DeploymentManager.deploy_via_ftp`. -/
def ftp_cmd (site : Site) : String :=
  "\n        lftp -c \"\n        open -u " ++ site.ftp_user ++ "," ++ site.ftp_pass
    ++ " " ++ site.ftp_host
    ++ "\n        lcd " ++ site.local_path
    ++ "\n        cd " ++ site.remote_path
    ++ "\n        mirror --reverse --delete --verbose --exclude .git --exclude node_modules"
    ++ "\n        bye\n        \"\n        "

/-- The `rsync` command string built by `DeploymentManager.deploy_via_ssh`
(the backslash line continuations of the Python source join the lines). -/
def ssh_cmd (site : Site) : String :=
  "\n        rsync -avz --delete             --exclude=\x27.git\x27"
    ++ "             --exclude=\x27node_modules\x27             --exclude=\x27*.log\x27"
    ++ "             -e \x27ssh -p " ++ toString (site.ssh_port.getD 22) ++ "\x27"
    ++ "             " ++ site.local_path ++ "/"
    ++ "             " ++ site.ssh_user ++ "@" ++ site.ssh_host ++ ":" ++ site.remote_path ++ "/\n        "

/-- The command list built by `DeploymentManager.deploy_via_git` (each entry is
run as its own subprocess, in the site's local path). -/
def git_commands (env : Env) (site : Site) : List String :=
  [ "cd " ++ site.local_path,
    "git add .",
    "git commit -m \x27Deploy: " ++ env.now ++ "\x27",
    "git push " ++ site.git_remote ++ " " ++ site.git_branch ]

/-- Forgets the stdout of a single transfer command, keeping success/failure
and the trace. -/
def toUnit (r : Except String String × List Op) : Except String Unit × List Op :=
  (r.1.map (fun _ => ()), r.2)

/-- Sequencing of two deployment steps: the second runs only if the first did
not raise; traces accumulate. -/
def seqOp (a : Except String Unit × List Op) (b : Except String Unit × List Op) :
    Except String Unit × List Op :=
  match a with
  | (Except.error e, t) => (Except.error e, t)
  | (Except.ok _, t) => (b.1, t ++ b.2)

/-- Step 2 of `deploy_site`: if the `pre_deploy` key is present, run its
commands in order with `cwd = local_path`, locally. -/
def pre_deploy_step (env : Env) (site : Site) : Except String Unit × List Op :=
  match site.pre_deploy with
  | none => (Except.ok (), [])
  | some cmds => run_commands env cmds (some site.local_path) false none

/-- Step 3 of `deploy_site`: dispatch on `deploy_method`; an unknown method
raises `Exception("Unknown deploy method: " + method)`. -/
def transfer_step (env : Env) (site : Site) : Except String Unit × List Op :=
  if site.deploy_method = "ftp" then toUnit (run_command env (ftp_cmd site) none false none)
  else if site.deploy_method = "ssh" then toUnit (run_command env (ssh_cmd site) none false none)
  else if site.deploy_method = "git" then
    run_commands env (git_commands env site) (some site.local_path) false none
  else (Except.error ("Unknown deploy method: " ++ site.deploy_method), [])

/-- Step 4 of `deploy_site`: if the `post_deploy` key is present, run its
commands in order with `remote=True`, so each is rewritten to an `ssh`
invocation against the site's host. -/
def post_deploy_step (env : Env) (site : Site) : Except String Unit × List Op :=
  match site.post_deploy with
  | none => (Except.ok (), [])
  | some cmds => run_commands env cmds none true (some site)

/-- `DeploymentManager.health_check`: probes the URL once and classifies the
outcome for logging; every exception is caught inside, so the caller only ever
observes the log classification. -/
def health_check (env : Env) (url : String) : HCLog :=
  match env.http url with
  | HttpOutcome.resp code _ => if code = 200 then HCLog.up else HCLog.warn_status code
  | HttpOutcome.exn e => HCLog.warn_failed e

/-- Step 5 of `deploy_site`: if a `health_check_url` is configured, probe it;
the classification is only logged (recorded in the trace) and never raises. -/
def health_step (env : Env) (site : Site) : Except String Unit × List Op :=
  match site.health_check_url with
  | none => (Except.ok (), [])
  | some url => (Except.ok (), [Op.probe url (health_check env url)])

/-- Steps 2-4 of `deploy_site` (pre-deploy, transfer, post-deploy), in order,
aborting at the first raised exception. -/
def deploy_core (env : Env) (site : Site) : Except String Unit × List Op :=
  seqOp (pre_deploy_step env site)
    (seqOp (transfer_step env site) (post_deploy_step env site))

/-- Steps 2-5 of `deploy_site`. -/
def deploy_steps (env : Env) (site : Site) : Except String Unit × List Op :=
  seqOp (deploy_core env site) (health_step env site)

/-- Status of one Deployment Result: `success`, or `failed` with the message
of the caught exception. -/
inductive DStatus where
  | success
  | failed (error : String)
deriving DecidableEq, Repr

/-- One Deployment Result record (`site` and `status`/`error`; the wall-clock
`time` and `timestamp` fields are elided). -/
structure DepResult where
  site : String
  status : DStatus
deriving DecidableEq, Repr

/-- `DeploymentManager.deploy_site`: the whole body runs inside one
`try/except Exception` — validation failure (`local_path` missing), a
pre-deploy / transfer / post-deploy exception, or an unknown method all fall
to the handler, which builds a `failed` result; otherwise the result is
`success`.  Exactly one result is produced either way. -/
def deploy_site (env : Env) (site : Site) : DepResult × List Op :=
  if env.pathExists site.local_path then
    match deploy_steps env site with
    | (Except.ok _, t) => (⟨site.name, DStatus.success⟩, t)
    | (Except.error e, t) => (⟨site.name, DStatus.failed e⟩, t)
  else
    (⟨site.name, DStatus.failed ("Local path not found: " ++ site.local_path)⟩, [])

/-- The sequential branch of `DeploymentManager.deploy_all`: iterate over the
configured sites in order, appending each site's Deployment Result to the
run's results list (initially empty). -/
def deploy_all (env : Env) (sites : List Site) : List DepResult :=
  sites.foldl (fun acc s => acc ++ [(deploy_site env s).1]) []

end DeployManager

namespace Rollback

/-- A filesystem tree, as copied by `shutil.copytree(..., symlinks=True)`:
regular files with their byte content, symbolic links preserved as links (the
target string, not followed), and directories with an ordered child list. -/
inductive Node where
  | file (data : String)
  | symlink (target : String)
  | dir (children : List (String × Node))

/-- The contents of the `backups` directory owned by `RollbackManager`: one
entry per backup, `(directory name, copied tree)`, in `os.listdir` order. -/
structure BackupStore where
  entries : List (String × Node)

/-- One record built by `RollbackManager.list_backups`. -/
structure Backup where
  name : String
  path : String
  timestamp : String
deriving DecidableEq, Repr

/-- The characters after the first `'_'`, or `none` when there is none. -/
def after_first_underscore : List Char → Option (List Char)
  | [] => none
  | c :: cs => if c = '_' then some cs else after_first_underscore cs

/-- `item.split('_', 1)[1] if '_' in item else 'unknown'`: everything after
the first underscore, or `"unknown"` when there is none. -/
def backup_timestamp (item : String) : String :=
  match after_first_underscore item.data with
  | some rest => String.mk rest
  | none => "unknown"

/-- `item.startswith(site_name)` on Python strings: character-prefix test. -/
def startswith (site_name item : String) : Bool :=
  site_name.data.isPrefixOf item.data

/-- The record `{'name': item, 'path': os.path.join('backups', item),
'timestamp': ...}` built for one directory entry. -/
def mk_backup (item : String) : Backup :=
  ⟨item, "backups/" ++ item, backup_timestamp item⟩

/-- Python's string comparison `a < b`: lexicographic on Unicode code points. -/
def lexLt : List Char → List Char → Bool
  | [], [] => false
  | [], _ :: _ => true
  | _ :: _, [] => false
  | a :: as, b :: bs =>
    if a.toNat < b.toNat then true
    else if b.toNat < a.toNat then false
    else lexLt as bs

/-- `a` may precede `b` in the descending listing: `a`'s timestamp key is not
lexicographically smaller than `b`'s (i.e. `b.timestamp ≤ a.timestamp` in
Python's string order). -/
def ts_ge (a b : Backup) : Prop :=
  lexLt a.timestamp.data b.timestamp.data = false

instance : DecidableRel ts_ge :=
  fun a b => inferInstanceAs (Decidable (lexLt a.timestamp.data b.timestamp.data = false))

/-- Stable insertion of a backup into a (descending) list: walk past every
element with a strictly larger timestamp, then place the new element — with
ties, before the elements already present that it is inserted in front of.
Combined with `sort_backups` processing from the right this realises exactly
the stable descending sort of `list.sort(key=..., reverse=True)`. -/
def insert_desc (x : Backup) : List Backup → List Backup
  | [] => [x]
  | y :: ys =>
    if lexLt x.timestamp.data y.timestamp.data then y :: insert_desc x ys
    else x :: y :: ys

/-- `backups.sort(key=lambda x: x['timestamp'], reverse=True)`: a stable sort
by timestamp, most recent (largest) first. -/
def sort_backups : List Backup → List Backup
  | [] => []
  | x :: xs => insert_desc x (sort_backups xs)

/-- `RollbackManager.list_backups`: every entry of the backup directory whose
name starts with `site_name`, as a record, sorted by timestamp descending. -/
def list_backups (store : BackupStore) (site_name : String) : List Backup :=
  sort_backups (((store.entries.map Prod.fst).filter
    (fun item => startswith site_name item)).map mk_backup)

/-- `RollbackManager.cleanup_old_backups`: if more than `keep` backups are
listed for the site, remove (`shutil.rmtree`) every listed backup past the
first `keep` of the descending listing. -/
def cleanup_old_backups (store : BackupStore) (site_name : String) (keep : Nat) :
    BackupStore :=
  let backups := list_backups store site_name
  if backups.length > keep then
    ⟨store.entries.filter
      (fun e => !((backups.drop keep).map Backup.name).contains e.1)⟩
  else store

/-- `RollbackManager.create_backup`: copy the site's tree to
`backups/<site_name>_<timestamp>` (symlinks preserved), then enforce retention
with `keep = 5`; returns the new store and the backup path.  The timestamp
string comes from the environment (`datetime.now().strftime('%Y%m%d_%H%M%S')`). -/
def create_backup (store : BackupStore) (site_name : String) (site_tree : Node)
    (timestamp : String) : BackupStore × String :=
  let backup_name := site_name ++ "_" ++ timestamp
  let backup_path := "backups/" ++ backup_name
  let store2 : BackupStore := ⟨store.entries ++ [(backup_name, site_tree)]⟩
  (cleanup_old_backups store2 site_name 5, backup_path)

/-- `RollbackManager.rollback`: list the site's backups (none ⇒ `False`);
select the most recent, or the exact name match (`None` ⇒ `False`); then
remove the live tree if present and copy the chosen backup's tree to the live
path (symlinks preserved).  `live` is the tree at `site_path` (`none` when the
path does not exist); the returned pair is (Python return value, tree at
`site_path` afterwards). -/
def rollback (store : BackupStore) (live : Option Node) (site_name : String)
    (backup_name : Option String) : Bool × Option Node :=
  let backups := list_backups store site_name
  match backups with
  | [] => (false, live)
  | b0 :: _ =>
    let chosen : Option Backup :=
      match backup_name with
      | none => some b0
      | some bn => backups.find? (fun b => b.name == bn)
    match chosen with
    | none => (false, live)
    | some b =>
      match store.entries.find? (fun e => e.1 == b.name) with
      | some e => (true, some e.2)
      | none => (false, none)

end Rollback

namespace Monitor

open DeployManager (Site HttpOutcome)

/-- One record returned by `SiteMonitor.check_site`: `status_code` and
`response_time` are present on a completed request (UP or DOWN), `error` on a
raised exception; the wall-clock `timestamp` field is elided. -/
structure CheckResult where
  site : String
  url : String
  status : String
  status_code : Option Nat
  response_time : Option Nat
  error : Option String
deriving DecidableEq, Repr

/-- `SiteMonitor.check_site`: `None` when the site has no `health_check_url`;
otherwise issue exactly one `requests.get` (the trace lists the probed URLs)
and classify: status 200 ⇒ `UP`, any other status ⇒ `DOWN` (code retained,
response time measured in both cases), a raised exception ⇒ `ERROR` with the
message retained. -/
def check_site (http : String → HttpOutcome) (site : Site) :
    Option CheckResult × List String :=
  match site.health_check_url with
  | none => (none, [])
  | some url =>
    match http url with
    | HttpOutcome.resp code t =>
      (some ⟨site.name, url, if code = 200 then "UP" else "DOWN",
        some code, some t, none⟩, [url])
    | HttpOutcome.exn e =>
      (some ⟨site.name, url, "ERROR", none, none, some e⟩, [url])

end Monitor

namespace Fix

open DeployManager Rollback

/-- A concrete environment in which no path exists. -/
def envNoPath : Env :=
  ⟨fun _ => false, fun _ _ => CmdResult.completed 0 "" "", fun _ => HttpOutcome.exn "down",
    "20240101_000000"⟩

/-- A concrete environment in which every path exists, every command succeeds
and the health probe reports HTTP 503. -/
def envOk : Env :=
  ⟨fun _ => true, fun _ _ => CmdResult.completed 0 "" "", fun _ => HttpOutcome.resp 503 7,
    "20240101_000000"⟩

/-- A concrete FTP site with a health-check URL and no hooks. -/
def siteFtp : Site :=
  ⟨"s1", "/var/www/s1", "/public_html", "ftp", "u", "pw", "ftp.example.com", "su",
    "ssh.example.com", none, "origin", "main", none, none, some "http://s1.example.com"⟩

/-- A concrete site whose `deploy_method` is not one of ftp/ssh/git. -/
def siteBadMethod : Site :=
  ⟨"s2", "/var/www/s2", "/public_html", "rsync", "u", "pw", "ftp.example.com", "su",
    "ssh.example.com", none, "origin", "main", none, none, none⟩

/-- A backup store holding one backup of site `ab` and five backups of site
`a`; the `ab` backup's name starts with `"a"`. -/
def storeAB : BackupStore :=
  ⟨[("ab_00", Node.dir []), ("a_01", Node.dir []), ("a_02", Node.dir []),
    ("a_03", Node.dir []), ("a_04", Node.dir []), ("a_05", Node.dir [])]⟩

/-- A backup store holding exactly five backups of site `a` and nothing else. -/
def storeA5 : BackupStore :=
  ⟨[("a_01", Node.dir []), ("a_02", Node.dir []), ("a_03", Node.dir []),
    ("a_04", Node.dir []), ("a_05", Node.dir [])]⟩

/-- A backup store holding five backups of site `a`, all with timestamps
greater than `"01"`. -/
def storeA5new : BackupStore :=
  ⟨[("a_02", Node.dir []), ("a_03", Node.dir []), ("a_04", Node.dir []),
    ("a_05", Node.dir []), ("a_06", Node.dir [])]⟩

/-- A concrete site tree. -/
def treeOrig : Node := Node.dir [("index.html", Node.file "v1")]

/-- A different concrete site tree (a modified live deployment). -/
def treeMod : Node := Node.dir []

/-- A site tree containing a symbolic link. -/
def treeLink : Node := Node.dir [("link", Node.symlink "/etc/alternatives")]

end Fix

section Theorems

open DeployManager Rollback Monitor

/-! ### Helper lemmas about the deployment orchestrator -/

theorem deploy_all_eq_map (env : Env) (sites : List Site) :
    deploy_all env sites = sites.map (fun s => (deploy_site env s).1) := by
  have h : ∀ (l : List Site) (acc : List DepResult),
      l.foldl (fun a s => a ++ [(deploy_site env s).1]) acc
        = acc ++ l.map (fun s => (deploy_site env s).1) := by
    intro l
    induction l with
    | nil => intro acc; simp
    | cons s rest ih => intro acc; simp [ih]
  simpa [deploy_all] using h sites []

theorem deploy_site_fst_site (env : Env) (site : Site) :
    (deploy_site env site).1.site = site.name := by
  unfold deploy_site
  split
  · split <;> rfl
  · rfl

theorem seqOp_fst_of_ok (a b : Except String Unit × List Op) (ha : a.1 = Except.ok ()) :
    (seqOp a b).1 = b.1 := by
  rcases a with ⟨r, t⟩
  simp only at ha
  subst ha
  rfl

theorem seqOp_fst_of_error (a b : Except String Unit × List Op) (e : String)
    (ha : a.1 = Except.error e) : (seqOp a b).1 = Except.error e := by
  rcases a with ⟨r, t⟩
  simp only at ha
  subst ha
  rfl

theorem health_step_fst (env : Env) (site : Site) :
    (health_step env site).1 = Except.ok () := by
  unfold health_step
  split <;> rfl

theorem deploy_steps_fst (env : Env) (site : Site) :
    (deploy_steps env site).1 = (deploy_core env site).1 := by
  unfold deploy_steps
  rcases h : deploy_core env site with ⟨r, t⟩
  cases r with
  | ok u => cases u; simp [seqOp, health_step_fst]
  | error e => simp [seqOp]

theorem deploy_site_of_steps_error (env : Env) (site : Site) (e : String)
    (hp : env.pathExists site.local_path = true)
    (h : (deploy_steps env site).1 = Except.error e) :
    (deploy_site env site).1 = ⟨site.name, DStatus.failed e⟩ := by
  unfold deploy_site
  rcases hds : deploy_steps env site with ⟨r, t⟩
  rw [hds] at h
  simp only at h
  subst h
  simp [hp]

theorem deploy_site_of_steps_ok (env : Env) (site : Site)
    (hp : env.pathExists site.local_path = true)
    (h : (deploy_steps env site).1 = Except.ok ()) :
    (deploy_site env site).1 = ⟨site.name, DStatus.success⟩ := by
  unfold deploy_site
  rcases hds : deploy_steps env site with ⟨r, t⟩
  rw [hds] at h
  simp only at h
  subst h
  simp [hp]

/-! ### C1 -/

/-- C1: a sequential `deploy_all` run over any list of N sites produces
exactly N Deployment Results, one per site, in the order the sites appear in
the configuration; `deploy_site` is total (every exception is caught inside
it), so a site-level failure never aborts the run and every configured site is
attempted — the results list is exactly the per-site map. -/
theorem c1_sequential_run_results (env : Env) (sites : List Site) :
    deploy_all env sites = sites.map (fun s => (deploy_site env s).1) ∧
    (deploy_all env sites).length = sites.length ∧
    (deploy_all env sites).map DepResult.site = sites.map Site.name := by
  refine ⟨deploy_all_eq_map env sites, ?_, ?_⟩
  · rw [deploy_all_eq_map]; simp
  · rw [deploy_all_eq_map]
    simp [List.map_map, Function.comp_def, deploy_site_fst_site]

/-! ### C2 -/

/-- C2: a site whose `local_path` does not exist yields a `failed` Deployment
Result carrying the "Local path not found" error, and the operation trace is
empty — no command (so no ftp/ssh/git transfer) and no probe is ever
invoked for that site. -/
theorem c2_missing_local_path (env : Env) (site : Site)
    (h : env.pathExists site.local_path = false) :
    deploy_site env site
      = (⟨site.name, DStatus.failed ("Local path not found: " ++ site.local_path)⟩, []) := by
  unfold deploy_site
  rw [h]
  simp

/-- C2 witness: concrete run of `deploy_site` against a missing path. -/
theorem c2_missing_local_path_witness :
    deploy_site Fix.envNoPath Fix.siteFtp
      = (⟨"s1", DStatus.failed ("Local path not found: " ++ "/var/www/s1")⟩, []) :=
  c2_missing_local_path Fix.envNoPath Fix.siteFtp rfl

/-! ### C5 -/

theorem timeout_msg_ne (s : String) :
    "Command timed out" ≠ "Command execution error: " ++ s := by
  intro h
  have hl : ("Command timed out" : String).length
      = ("Command execution error: " ++ s).length := by rw [h]
  rw [String.length_append] at hl
  have h17 : ("Command timed out" : String).length = 17 := rfl
  have h25 : ("Command execution error: " : String).length = 25 := rfl
  omega

/-- C5 counterexample: the claim says a nonzero-exit Command Failure and any
other Execution Error are distinct failure kinds; in the code a nonzero exit
is re-wrapped by the generic `except Exception` handler into the very same
`"Command execution error: ..."` form, so an execution error whose underlying
message is `"Command failed: boom"` is indistinguishable from a nonzero exit
with stderr `"boom"`. -/
theorem c5_counterexample :
    run_result (CmdResult.execError "Command failed: boom")
        = run_result (CmdResult.completed 1 "" "boom") ∧
    run_result (CmdResult.completed 1 "" "boom")
        = Except.error ("Command execution error: " ++ ("Command failed: " ++ "boom")) := by
  constructor <;> rfl

/-- C5 (amended): a timed-out command fails with `"Command timed out"`,
distinct from both a nonzero-exit failure and any other execution error; a
nonzero exit fails carrying the captured standard error, but wrapped in the
same `"Command execution error: ..."` form as any other execution error (so
those two are not distinguishable in general); on success the captured
standard output is returned. -/
theorem c5_run_command_classification :
    (run_result CmdResult.timedOut = Except.error "Command timed out") ∧
    (∀ (rc : Int) (out err : String), rc ≠ 0 →
        run_result (CmdResult.completed rc out err)
          = Except.error ("Command execution error: " ++ ("Command failed: " ++ err))) ∧
    (∀ out err : String, run_result (CmdResult.completed 0 out err) = Except.ok out) ∧
    (∀ m : String, run_result (CmdResult.execError m)
          = Except.error ("Command execution error: " ++ m)) ∧
    (∀ (rc : Int) (out err : String), rc ≠ 0 →
        run_result CmdResult.timedOut ≠ run_result (CmdResult.completed rc out err)) ∧
    (∀ m : String, run_result CmdResult.timedOut ≠ run_result (CmdResult.execError m)) := by
  refine ⟨rfl, ?_, ?_, ?_, ?_, ?_⟩
  · intro rc out err h
    simp [run_result, h]
  · intro out err
    simp [run_result]
  · intro m
    rfl
  · intro rc out err h heq
    have h2 : run_result (CmdResult.completed rc out err)
        = Except.error ("Command execution error: " ++ ("Command failed: " ++ err)) := by
      simp [run_result, h]
    rw [h2] at heq
    have h3 : (Except.error "Command timed out" : Except String String)
        = Except.error ("Command execution error: " ++ ("Command failed: " ++ err)) := heq
    injection h3 with h4
    exact timeout_msg_ne _ h4
  · intro m heq
    have h3 : (Except.error "Command timed out" : Except String String)
        = Except.error ("Command execution error: " ++ m) := heq
    injection h3 with h4
    exact timeout_msg_ne _ h4

/-- C5 witness: the amended classification evaluated at concrete outcomes. -/
theorem c5_run_command_classification_witness :
    run_result (CmdResult.completed 2 "" "permission denied")
      = Except.error ("Command execution error: "
          ++ ("Command failed: " ++ "permission denied")) :=
  c5_run_command_classification.2.1 2 "" "permission denied" (by decide)

/-! ### C8 -/

/-- C8: one health probe of a configured URL is classified UP on status 200
(with the measured round-trip time recorded), DOWN on any non-200 status (with
the status code retained), and ERROR on a raised exception (with the message
retained); in every case the trace shows exactly one probe — no retries. -/
theorem c8_health_probe_classification (http : String → HttpOutcome) (site : Site)
    (url : String) (h : site.health_check_url = some url) :
    (∀ t, http url = HttpOutcome.resp 200 t →
        check_site http site
          = (some ⟨site.name, url, "UP", some 200, some t, none⟩, [url])) ∧
    (∀ code t, http url = HttpOutcome.resp code t → code ≠ 200 →
        check_site http site
          = (some ⟨site.name, url, "DOWN", some code, some t, none⟩, [url])) ∧
    (∀ e, http url = HttpOutcome.exn e →
        check_site http site
          = (some ⟨site.name, url, "ERROR", none, none, some e⟩, [url])) := by
  refine ⟨?_, ?_, ?_⟩ <;> intros <;> simp_all [check_site]

/-- C8 witness: the UP case at a concrete probe outcome. -/
theorem c8_health_probe_classification_witness :
    check_site (fun _ => HttpOutcome.resp 200 42) Fix.siteFtp
      = (some ⟨"s1", "http://s1.example.com", "UP", some 200, some 42, none⟩,
          ["http://s1.example.com"]) :=
  (c8_health_probe_classification (fun _ => HttpOutcome.resp 200 42) Fix.siteFtp
    "http://s1.example.com" rfl).1 42 rfl

/-! ### C9 -/

/-- C9: when a site's `deploy_method` is none of ftp/ssh/git (and the earlier
stages did not already abort the site: its local path exists and pre-deploy
raised nothing), `deploy_site` yields a `failed` result whose error names the
unknown method; and in any full run the site still contributes exactly one
result, with the rest of the run unaffected. -/
theorem c9_unknown_method (env : Env) (site : Site)
    (h1 : site.deploy_method ≠ "ftp") (h2 : site.deploy_method ≠ "ssh")
    (h3 : site.deploy_method ≠ "git")
    (hp : env.pathExists site.local_path = true)
    (hpre : (pre_deploy_step env site).1 = Except.ok ()) :
    (deploy_site env site).1
        = ⟨site.name, DStatus.failed ("Unknown deploy method: " ++ site.deploy_method)⟩ ∧
    ∀ left right : List Site,
      deploy_all env (left ++ site :: right)
        = deploy_all env left ++ (deploy_site env site).1 :: deploy_all env right := by
  constructor
  · have htr : transfer_step env site
        = (Except.error ("Unknown deploy method: " ++ site.deploy_method), []) := by
      unfold transfer_step
      rw [if_neg h1, if_neg h2, if_neg h3]
    have hcore : (deploy_core env site).1
        = Except.error ("Unknown deploy method: " ++ site.deploy_method) := by
      unfold deploy_core
      rw [seqOp_fst_of_ok _ _ hpre]
      rw [seqOp_fst_of_error _ _ _ (by rw [htr])]
    exact deploy_site_of_steps_error env site _ hp (by rw [deploy_steps_fst, hcore])
  · intro left right
    simp [deploy_all_eq_map]

/-- C9 witness: a concrete site with method `"rsync"`. -/
theorem c9_unknown_method_witness :
    (deploy_site Fix.envOk Fix.siteBadMethod).1
      = ⟨"s2", DStatus.failed ("Unknown deploy method: " ++ "rsync")⟩ :=
  (c9_unknown_method Fix.envOk Fix.siteBadMethod (by decide) (by decide) (by decide)
    rfl rfl).1

/-! ### C6 -/

theorem lexLt_asymm : ∀ a b : List Char, lexLt a b = true → lexLt b a = false := by
  intro a
  induction a with
  | nil =>
    intro b h
    cases b with
    | nil => simp [lexLt] at h
    | cons y ys => simp [lexLt]
  | cons x xs ih =>
    intro b h
    cases b with
    | nil => simp [lexLt] at h
    | cons y ys =>
      simp only [lexLt] at h ⊢
      by_cases h1 : x.toNat < y.toNat
      · rw [if_neg (by omega), if_pos h1]
      · by_cases h2 : y.toNat < x.toNat
        · rw [if_neg h1, if_pos h2] at h
          exact absurd h (by simp)
        · rw [if_neg h1, if_neg h2] at h
          rw [if_neg h2, if_neg h1]
          exact ih ys h

theorem lexLt_false_trans :
    ∀ a b c : List Char, lexLt a b = false → lexLt b c = false → lexLt a c = false := by
  intro a
  induction a with
  | nil =>
    intro b c hab hbc
    cases b with
    | nil => cases c with
      | nil => rfl
      | cons z zs => exact hbc
    | cons y ys => simp [lexLt] at hab
  | cons x xs ih =>
    intro b c hab hbc
    cases b with
    | nil => cases c with
      | nil => simp [lexLt]
      | cons z zs => simp [lexLt] at hbc
    | cons y ys =>
      cases c with
      | nil => simp [lexLt]
      | cons z zs =>
        simp only [lexLt] at hab hbc ⊢
        by_cases h1 : x.toNat < y.toNat
        · rw [if_pos h1] at hab
          exact absurd hab (by simp)
        · by_cases h2 : y.toNat < z.toNat
          · rw [if_pos h2] at hbc
            exact absurd hbc (by simp)
          · rw [if_neg h1] at hab
            rw [if_neg h2] at hbc
            rw [if_neg (by omega : ¬ x.toNat < z.toNat)]
            by_cases h5 : z.toNat < x.toNat
            · rw [if_pos h5]
            · rw [if_neg h5]
              rw [if_neg (by omega : ¬ y.toNat < x.toNat)] at hab
              rw [if_neg (by omega : ¬ z.toNat < y.toNat)] at hbc
              exact ih ys zs hab hbc

theorem insert_desc_cons_pos (x y : Backup) (l : List Backup)
    (h : lexLt x.timestamp.data y.timestamp.data = true) :
    insert_desc x (y :: l) = y :: insert_desc x l := by
  simp [insert_desc, h]

theorem insert_desc_cons_neg (x y : Backup) (l : List Backup)
    (h : lexLt x.timestamp.data y.timestamp.data = false) :
    insert_desc x (y :: l) = x :: y :: l := by
  simp [insert_desc, h]

theorem insert_desc_perm (x : Backup) :
    ∀ l : List Backup, List.Perm (insert_desc x l) (x :: l) := by
  intro l
  induction l with
  | nil => exact List.Perm.refl _
  | cons y ys ih =>
    by_cases h : lexLt x.timestamp.data y.timestamp.data = true
    · rw [insert_desc_cons_pos x y ys h]
      exact (ih.cons y).trans (List.Perm.swap x y ys)
    · rw [insert_desc_cons_neg x y ys (by simpa using h)]

theorem sort_backups_perm : ∀ l : List Backup, List.Perm (sort_backups l) l := by
  intro l
  induction l with
  | nil => exact List.Perm.refl _
  | cons x xs ih => exact (insert_desc_perm x (sort_backups xs)).trans (ih.cons x)

theorem mem_of_mem_insert_desc {z x : Backup} {l : List Backup}
    (h : z ∈ insert_desc x l) : z = x ∨ z ∈ l := by
  have := (insert_desc_perm x l).mem_iff.mp h
  simpa using this

theorem pairwise_insert_desc (x : Backup) :
    ∀ l : List Backup, List.Pairwise ts_ge l → List.Pairwise ts_ge (insert_desc x l) := by
  intro l
  induction l with
  | nil => intro _; simp [insert_desc]
  | cons y ys ih =>
    intro h
    rcases List.pairwise_cons.mp h with ⟨hy, hys⟩
    by_cases hxy : lexLt x.timestamp.data y.timestamp.data = true
    · rw [insert_desc_cons_pos x y ys hxy]
      refine List.pairwise_cons.mpr ⟨?_, ih hys⟩
      intro z hz
      rcases mem_of_mem_insert_desc hz with rfl | hz2
      · exact lexLt_asymm _ _ hxy
      · exact hy z hz2
    · have hxyf : lexLt x.timestamp.data y.timestamp.data = false := by simpa using hxy
      rw [insert_desc_cons_neg x y ys hxyf]
      refine List.pairwise_cons.mpr ⟨?_, h⟩
      intro z hz
      rcases List.mem_cons.mp hz with rfl | hz2
      · exact hxyf
      · exact lexLt_false_trans _ _ _ hxyf (hy z hz2)

theorem sort_backups_sorted : ∀ l : List Backup, List.Pairwise ts_ge (sort_backups l) := by
  intro l
  induction l with
  | nil => simp [sort_backups]
  | cons x xs ih => exact pairwise_insert_desc x _ ih

theorem insert_desc_eq_cons (x : Backup) (l : List Backup)
    (h : ∀ z ∈ l, ts_ge x z) : insert_desc x l = x :: l := by
  cases l with
  | nil => rfl
  | cons y ys => exact insert_desc_cons_neg x y ys (h y (List.mem_cons_self y ys))

theorem filter_insert_desc (q : Backup → Bool) (x : Backup) :
    ∀ l : List Backup, List.Pairwise ts_ge l →
      (insert_desc x l).filter q
        = if q x then insert_desc x (l.filter q) else l.filter q := by
  intro l
  induction l with
  | nil =>
    intro _
    by_cases hq : q x = true <;> simp [insert_desc, hq]
  | cons y ys ih =>
    intro h
    rcases List.pairwise_cons.mp h with ⟨hy, hys⟩
    by_cases hxy : lexLt x.timestamp.data y.timestamp.data = true
    · rw [insert_desc_cons_pos x y ys hxy, List.filter_cons, ih hys]
      by_cases hqy : q y = true
      · rw [if_pos hqy]
        by_cases hqx : q x = true
        · rw [if_pos hqx, if_pos hqx, List.filter_cons, if_pos hqy,
            insert_desc_cons_pos x y _ hxy]
        · rw [if_neg hqx, if_neg hqx, List.filter_cons, if_pos hqy]
      · rw [if_neg hqy]
        by_cases hqx : q x = true
        · rw [if_pos hqx, if_pos hqx, List.filter_cons, if_neg hqy]
        · rw [if_neg hqx, if_neg hqx, List.filter_cons, if_neg hqy]
    · have hxyf : lexLt x.timestamp.data y.timestamp.data = false := by simpa using hxy
      rw [insert_desc_cons_neg x y ys hxyf, List.filter_cons]
      by_cases hqx : q x = true
      · rw [if_pos hqx, if_pos hqx]
        refine (insert_desc_eq_cons x _ ?_).symm
        intro z hz
        rcases List.mem_cons.mp (List.mem_of_mem_filter hz) with rfl | hz3
        · exact hxyf
        · exact lexLt_false_trans _ _ _ hxyf (hy z hz3)
      · rw [if_neg hqx, if_neg hqx]

theorem filter_sort_backups (q : Backup → Bool) :
    ∀ l : List Backup, (sort_backups l).filter q = sort_backups (l.filter q) := by
  intro l
  induction l with
  | nil => rfl
  | cons x xs ih =>
    show (insert_desc x (sort_backups xs)).filter q = sort_backups ((x :: xs).filter q)
    rw [filter_insert_desc q x _ (sort_backups_sorted xs), ih, List.filter_cons]
    by_cases hqx : q x = true
    · rw [if_pos hqx, if_pos hqx]
      rfl
    · rw [if_neg hqx, if_neg hqx]

theorem map_name_mk (l : List String) : (l.map mk_backup).map Backup.name = l := by
  simp [List.map_map, Function.comp_def, mk_backup]

theorem listing_names_perm (store : BackupStore) (S : String) :
    List.Perm ((list_backups store S).map Backup.name)
      ((store.entries.map Prod.fst).filter (fun item => startswith S item)) := by
  have h1 := (sort_backups_perm
    (((store.entries.map Prod.fst).filter
      (fun item => startswith S item)).map mk_backup)).map Backup.name
  rw [map_name_mk] at h1
  exact h1

theorem mem_listing_names (store : BackupStore) (S item : String) :
    item ∈ (list_backups store S).map Backup.name ↔
      item ∈ store.entries.map Prod.fst ∧ startswith S item = true := by
  rw [(listing_names_perm store S).mem_iff]
  exact List.mem_filter

theorem listing_sorted (store : BackupStore) (S : String) :
    List.Pairwise ts_ge (list_backups store S) :=
  sort_backups_sorted _

theorem mem_listing_fields (store : BackupStore) (S : String) :
    ∀ b ∈ list_backups store S,
      b.path = "backups/" ++ b.name ∧ b.timestamp = backup_timestamp b.name := by
  intro b hb
  have hb2 : b ∈ ((store.entries.map Prod.fst).filter
      (fun item => startswith S item)).map mk_backup :=
    (sort_backups_perm _).mem_iff.mp hb
  rcases List.mem_map.mp hb2 with ⟨it, _, rfl⟩
  exact ⟨rfl, rfl⟩

theorem listing_names_nodup (store : BackupStore) (S : String)
    (hnd : (store.entries.map Prod.fst).Nodup) :
    ((list_backups store S).map Backup.name).Nodup :=
  ((listing_names_perm store S).nodup_iff).mpr (hnd.filter _)

theorem map_fst_filter_fst (l : List (String × Node)) (p : String → Bool) :
    (l.filter (fun e => p e.1)).map Prod.fst = (l.map Prod.fst).filter p := by
  induction l with
  | nil => rfl
  | cons e rest ih => by_cases hp : p e.1 = true <;> simp [List.filter_cons, hp, ih]

theorem filter_map_mk (l : List String) (q : String → Bool) :
    (l.filter q).map mk_backup = (l.map mk_backup).filter (fun b => q b.name) := by
  induction l with
  | nil => rfl
  | cons it rest ih => by_cases hq : q it = true <;> simp [List.filter_cons, hq, ih, mk_backup]

theorem filter_not_in_drop (L : List Backup) (k : Nat)
    (h : (L.map Backup.name).Nodup) :
    L.filter (fun b => !(((L.drop k).map Backup.name).contains b.name)) = L.take k := by
  have hsplit : L.map Backup.name
      = (L.take k).map Backup.name ++ (L.drop k).map Backup.name := by
    rw [← List.map_append, List.take_append_drop]
  have hnd2 := h
  rw [hsplit] at hnd2
  have hdisj := (List.nodup_append.mp hnd2).2.2
  have key : ∀ R : List String, (∀ b ∈ L.take k, b.name ∉ R) → (∀ b ∈ L.drop k, b.name ∈ R) →
      L.filter (fun b => !(R.contains b.name)) = L.take k := by
    intro R hA hB
    conv_lhs => rw [← List.take_append_drop k L]
    rw [List.filter_append]
    have h1 : (L.take k).filter (fun b => !(R.contains b.name)) = L.take k := by
      apply List.filter_eq_self.mpr
      intro b hb
      simpa using hA b hb
    have h2 : (L.drop k).filter (fun b => !(R.contains b.name)) = [] := by
      apply List.filter_eq_nil_iff.mpr
      intro b hb
      simpa using hB b hb
    rw [h1, h2, List.append_nil]
  apply key
  · intro b hb
    exact hdisj (List.mem_map_of_mem Backup.name hb)
  · intro b hb
    exact List.mem_map_of_mem Backup.name hb

theorem cleanup_listing (store : BackupStore) (S : String) (k : Nat)
    (hnd : (store.entries.map Prod.fst).Nodup) :
    list_backups (cleanup_old_backups store S k) S = (list_backups store S).take k ∧
    (cleanup_old_backups store S k).entries.filter (fun e => !(startswith S e.1))
      = store.entries.filter (fun e => !(startswith S e.1)) := by
  by_cases hlen : (list_backups store S).length > k
  case neg =>
    have hstore : cleanup_old_backups store S k = store := by
      simp [cleanup_old_backups, hlen]
    rw [hstore, List.take_of_length_le (by omega)]
    exact ⟨rfl, rfl⟩
  case pos =>
    have hstore : cleanup_old_backups store S k
        = ⟨store.entries.filter
            (fun e => !((((list_backups store S).drop k).map Backup.name).contains e.1))⟩ := by
      simp [cleanup_old_backups, hlen]
    rw [hstore]
    have hLnd : ((list_backups store S).map Backup.name).Nodup := listing_names_nodup store S hnd
    constructor
    · show sort_backups ((((⟨store.entries.filter
          (fun e => !((((list_backups store S).drop k).map Backup.name).contains e.1))⟩ :
            BackupStore).entries.map Prod.fst).filter
          (fun item => startswith S item)).map mk_backup)
        = (list_backups store S).take k
      rw [show (⟨store.entries.filter
          (fun e => !((((list_backups store S).drop k).map Backup.name).contains e.1))⟩ :
            BackupStore).entries
        = store.entries.filter
            (fun e => !((((list_backups store S).drop k).map Backup.name).contains e.1))
        from rfl]
      rw [map_fst_filter_fst store.entries
        (fun s => !((((list_backups store S).drop k).map Backup.name).contains s))]
      rw [List.filter_comm]
      rw [filter_map_mk ((store.entries.map Prod.fst).filter (fun item => startswith S item))
        (fun s => !((((list_backups store S).drop k).map Backup.name).contains s))]
      rw [← filter_sort_backups]
      rw [show sort_backups (((store.entries.map Prod.fst).filter
          (fun item => startswith S item)).map mk_backup) = list_backups store S from rfl]
      exact filter_not_in_drop (list_backups store S) k hLnd
    · rw [List.filter_comm]
      apply List.filter_eq_self.mpr
      intro e he
      have hns : startswith S e.1 = false := by
        have h2 := (List.mem_filter.mp he).2
        simpa using h2
      have hnotin : e.1 ∉ ((list_backups store S).drop k).map Backup.name := by
        intro hmem
        have hmem2 : e.1 ∈ (list_backups store S).map Backup.name := by
          rcases List.mem_map.mp hmem with ⟨b, hb, hbe⟩
          rw [← hbe]
          exact List.mem_map_of_mem Backup.name (List.drop_subset k _ hb)
        have := ((mem_listing_names store S e.1).mp hmem2).2
        rw [this] at hns
        exact absurd hns (by simp)
      simpa using hnotin

theorem startswith_self_append (S r : String) : startswith S (S ++ r) = true := by
  unfold startswith
  rw [String.data_append]
  exact List.isPrefixOf_iff_prefix.mpr (List.prefix_append _ _)

theorem startswith_backup_name (S ts : String) : startswith S (S ++ "_" ++ ts) = true := by
  have h : S ++ "_" ++ ts = S ++ ("_" ++ ts) := by rw [String.append_assoc]
  rw [h]
  exact startswith_self_append S _

theorem listing_length_snoc (store : BackupStore) (S n : String) (t : Node)
    (h : startswith S n = true) :
    (list_backups ⟨store.entries ++ [(n, t)]⟩ S).length
      = (list_backups store S).length + 1 := by
  show (sort_backups ((((store.entries ++ [(n, t)]).map Prod.fst).filter
      (fun item => startswith S item)).map mk_backup)).length = _
  rw [(sort_backups_perm _).length_eq]
  conv_rhs => rw [show (list_backups store S).length
    = (sort_backups (((store.entries.map Prod.fst).filter
        (fun item => startswith S item)).map mk_backup)).length from rfl]
  rw [(sort_backups_perm _).length_eq]
  simp [List.filter_append, h]

theorem find?_entries_snoc (l : List (String × Node)) (n : String) (t : Node)
    (h : n ∉ l.map Prod.fst) :
    (l ++ [(n, t)]).find? (fun e => e.1 == n) = some (n, t) := by
  induction l with
  | nil => simp [List.find?]
  | cons e rest ih =>
    have hne : e.1 ≠ n := by
      intro hh
      exact h (by simp [hh])
    rw [List.cons_append, List.find?_cons_of_neg _ (by simp [hne])]
    exact ih (fun hh => h (by simp [hh]))


/-! ### C10 -/

/-- C10: `list_backups` returns exactly the backup-directory entries whose
name starts with the site-name string, as records whose sort key is the
substring after the first underscore, sorted descending by that key; as a
consequence, whenever a site name is a (string) prefix of another site's
backup names, the other site's backups are included in the first site's
listing — and the listing is what retention pruning and rollback selection
operate on. -/
theorem c10_listing_startswith (store : BackupStore) (S : String) :
    (∀ item : String,
        item ∈ (list_backups store S).map Backup.name ↔
          item ∈ store.entries.map Prod.fst ∧ startswith S item = true) ∧
    List.Pairwise ts_ge (list_backups store S) ∧
    (∀ b ∈ list_backups store S,
        b.path = "backups/" ++ b.name ∧ b.timestamp = backup_timestamp b.name) ∧
    (∀ S2 item : String, startswith S S2 = true →
        item ∈ store.entries.map Prod.fst → startswith S2 item = true →
        item ∈ (list_backups store S).map Backup.name) := by
  refine ⟨fun item => mem_listing_names store S item, listing_sorted store S,
    mem_listing_fields store S, ?_⟩
  intro S2 item h1 h2 h3
  refine (mem_listing_names store S item).mpr ⟨h2, ?_⟩
  unfold startswith at h1 h3 ⊢
  rw [List.isPrefixOf_iff_prefix] at h1 h3 ⊢
  exact h1.trans h3

/-- C10 witness: site `ab`'s backup `ab_00` appears in site `a`'s listing. -/
theorem c10_listing_startswith_witness :
    "ab_00" ∈ (list_backups Fix.storeAB "a").map Backup.name :=
  (c10_listing_startswith Fix.storeAB "a").2.2.2 "ab" "ab_00" (by decide) (by decide) (by decide)

/-! ### C4 -/

/-- C4 counterexample: pruning is based on the `startswith(site_name)` listing,
so creating backup #6 for site `a` (timestamp `06`) when the store also holds
site `ab`'s backup `ab_00` deletes `ab_00` — a backup of a *different* site —
because `"ab_00"` starts with `"a"` and sorts oldest.  This refutes "touches
no backup of any other site". -/
theorem c4_counterexample :
    "ab_00" ∈ Fix.storeAB.entries.map Prod.fst ∧
    startswith "ab" "ab_00" = true ∧
    ("a" : String) ≠ "ab" ∧
    ((create_backup Fix.storeAB "a" (Node.dir []) "06").1).entries.map Prod.fst
      = ["a_02", "a_03", "a_04", "a_05", "a_06"] ∧
    "ab_00" ∉ ((create_backup Fix.storeAB "a" (Node.dir []) "06").1).entries.map Prod.fst := by
  refine ⟨by decide, by decide, by decide, by decide, by decide⟩

/-- C4 (amended): for a site whose *listing* (every directory entry whose name
starts with the site name) has exactly 5 entries, creating a sixth backup
leaves exactly 5 listed backups: the listing becomes the 5 most recent of the
6, the single dropped entry is the oldest (every kept entry's timestamp is ≥
its), and directory entries *not* starting with the site name are untouched;
in general `cleanup_old_backups` with `keep = 5` cuts the listing to its 5
most recent entries.  (Backups of a different site whose name extends this
site's name count toward the listing and may be deleted — see the
counterexample.) -/
theorem c4_retention (store : BackupStore) (S : String) (tree : Node) (ts : String)
    (hnd : (store.entries.map Prod.fst).Nodup)
    (hfresh : (S ++ "_" ++ ts) ∉ store.entries.map Prod.fst)
    (hfive : (list_backups store S).length = 5) :
    (list_backups (create_backup store S tree ts).1 S).length = 5 ∧
    list_backups (create_backup store S tree ts).1 S
      = (list_backups ⟨store.entries ++ [(S ++ "_" ++ ts, tree)]⟩ S).take 5 ∧
    ((list_backups ⟨store.entries ++ [(S ++ "_" ++ ts, tree)]⟩ S).drop 5).length = 1 ∧
    (∀ b ∈ (list_backups ⟨store.entries ++ [(S ++ "_" ++ ts, tree)]⟩ S).take 5,
      ∀ c ∈ (list_backups ⟨store.entries ++ [(S ++ "_" ++ ts, tree)]⟩ S).drop 5,
        ts_ge b c) ∧
    (create_backup store S tree ts).1.entries.filter (fun e => !(startswith S e.1))
      = store.entries.filter (fun e => !(startswith S e.1)) ∧
    (∀ store2 : BackupStore, (store2.entries.map Prod.fst).Nodup →
      list_backups (cleanup_old_backups store2 S 5) S = (list_backups store2 S).take 5) := by
  have hbn : startswith S (S ++ "_" ++ ts) = true := startswith_backup_name S ts
  have hndN : ((store.entries ++ [(S ++ "_" ++ ts, tree)]).map Prod.fst).Nodup := by
    rw [List.map_append]
    rw [List.nodup_append]
    refine ⟨hnd, by simp, ?_⟩
    intro a ha hb
    simp only [List.map_cons, List.map_nil, List.mem_singleton] at hb
    rw [hb] at ha
    exact hfresh ha
  have hlen6 : (list_backups ⟨store.entries ++ [(S ++ "_" ++ ts, tree)]⟩ S).length = 6 := by
    rw [listing_length_snoc store S _ tree hbn, hfive]
  have hclean : (create_backup store S tree ts).1
      = cleanup_old_backups ⟨store.entries ++ [(S ++ "_" ++ ts, tree)]⟩ S 5 := rfl
  have hcl := cleanup_listing ⟨store.entries ++ [(S ++ "_" ++ ts, tree)]⟩ S 5 hndN
  refine ⟨?_, ?_, ?_, ?_, ?_, ?_⟩
  · rw [hclean, hcl.1, List.length_take, hlen6]
    decide
  · rw [hclean, hcl.1]
  · rw [List.length_drop, hlen6]
  · intro b hb c hc
    have hsp := listing_sorted ⟨store.entries ++ [(S ++ "_" ++ ts, tree)]⟩ S
    rw [← List.take_append_drop 5
      (list_backups ⟨store.entries ++ [(S ++ "_" ++ ts, tree)]⟩ S)] at hsp
    exact (List.pairwise_append.mp hsp).2.2 b hb c hc
  · rw [hclean]
    have h2 := hcl.2
    rw [show (⟨store.entries ++ [(S ++ "_" ++ ts, tree)]⟩ : BackupStore).entries
      = store.entries ++ [(S ++ "_" ++ ts, tree)] from rfl] at h2
    rw [h2, List.filter_append]
    simp [hbn]
  · intro store2 hnd2
    exact (cleanup_listing store2 S 5 hnd2).1

/-- C4 witness: creating backup #6 (timestamp `06`) for site `a` with exactly
five existing backups leaves exactly five listed backups. -/
theorem c4_retention_witness :
    (list_backups (create_backup Fix.storeA5 "a" (Node.dir []) "06").1 "a").length = 5 :=
  (c4_retention Fix.storeA5 "a" (Node.dir []) "06" (by decide) (by decide) (by decide)).1

/-! ### C7 -/

/-- C7 counterexample: with five existing backups of site `a` all newer than
the new backup's timestamp `01`, `create_backup` prunes the *just created*
backup `a_01` immediately (it sorts oldest among the six listed), so a
subsequent rollback to its identifier fails with `False` and leaves the
(meanwhile modified) live tree in place — the round trip does not reproduce
the original tree. -/
theorem c7_counterexample :
    (create_backup Fix.storeA5new "a" Fix.treeOrig "01").2 = "backups/a_01" ∧
    rollback (create_backup Fix.storeA5new "a" Fix.treeOrig "01").1 (some Fix.treeMod)
        "a" (some "a_01")
      = (false, some Fix.treeMod) ∧
    Fix.treeMod ≠ Fix.treeOrig := by
  refine ⟨rfl, rfl, ?_⟩
  intro h
  simp [Fix.treeMod, Fix.treeOrig] at h

theorem rollback_finds (store2 : BackupStore) (live : Option Node) (S bname : String)
    (tree : Node)
    (hmem : bname ∈ (list_backups store2 S).map Backup.name)
    (hfind : store2.entries.find? (fun e => e.1 == bname) = some (bname, tree)) :
    rollback store2 live S (some bname) = (true, some tree) := by
  unfold rollback
  rcases hlb : list_backups store2 S with _ | ⟨b0, rest⟩
  · rw [hlb] at hmem
    exact absurd hmem (by simp)
  · rw [hlb] at hmem
    have hfs : ((b0 :: rest).find? (fun bk => bk.name == bname)).isSome := by
      rw [List.find?_isSome]
      rcases List.mem_map.mp hmem with ⟨b, hb, hbname⟩
      exact ⟨b, hb, by simp [hbname]⟩
    rcases hfind2 : (b0 :: rest).find? (fun bk => bk.name == bname) with _ | bf
    · rw [hfind2] at hfs
      simp at hfs
    · have hbfname : bf.name = bname := by
        have h2 := List.find?_some hfind2
        simpa using h2
      have hentry : store2.entries.find? (fun e => e.1 == bf.name) = some (bname, tree) := by
        rw [hbfname]
        exact hfind
      simp [hfind2, hentry]

theorem find?_filter_snoc (l : List (String × Node)) (n : String) (t : Node)
    (p : String × Node → Bool)
    (hfresh : n ∉ l.map Prod.fst) (hp : p (n, t) = true) :
    ((l ++ [(n, t)]).filter p).find? (fun e => e.1 == n) = some (n, t) := by
  rw [List.filter_append]
  have h1 : List.filter p [(n, t)] = [(n, t)] := by simp [hp]
  rw [h1]
  apply find?_entries_snoc
  intro hmem
  apply hfresh
  rcases List.mem_map.mp hmem with ⟨e, he, hne⟩
  rw [← hne]
  exact List.mem_map_of_mem Prod.fst (List.mem_of_mem_filter he)

/-- C7 (amended): provided the new backup's name is fresh and the new backup
*survives retention* — it is among the 5 most recent entries of the site's
listing after creation (always the case when its timestamp is the newest, in
particular in the steady state where the site already holds 5 backups) —
creating a backup of a tree and then rolling back to that backup's identifier
succeeds and reproduces the original tree exactly at the live site path,
whatever the live tree had become in between, with symlink nodes preserved as
links in both copies. -/
theorem c7_roundtrip (store : BackupStore) (S : String) (tree : Node) (ts : String)
    (live : Option Node)
    (hfresh : (S ++ "_" ++ ts) ∉ store.entries.map Prod.fst)
    (hsurv : (S ++ "_" ++ ts)
      ∈ ((list_backups ⟨store.entries ++ [(S ++ "_" ++ ts, tree)]⟩ S).take 5).map
          Backup.name) :
    rollback (create_backup store S tree ts).1 live S (some (S ++ "_" ++ ts))
      = (true, some tree) := by
  have hpre : startswith S (S ++ "_" ++ ts) = true := startswith_backup_name S ts
  have hclean : (create_backup store S tree ts).1
      = cleanup_old_backups ⟨store.entries ++ [(S ++ "_" ++ ts, tree)]⟩ S 5 := rfl
  by_cases hlen : (list_backups ⟨store.entries ++ [(S ++ "_" ++ ts, tree)]⟩ S).length > 5
  case neg =>
    have hid : cleanup_old_backups ⟨store.entries ++ [(S ++ "_" ++ ts, tree)]⟩ S 5
        = ⟨store.entries ++ [(S ++ "_" ++ ts, tree)]⟩ := by
      simp [cleanup_old_backups, hlen]
    rw [hclean, hid]
    apply rollback_finds
    · rw [mem_listing_names]
      exact ⟨by simp, hpre⟩
    · exact find?_entries_snoc store.entries _ tree hfresh
  case pos =>
    have hcount : ((list_backups ⟨store.entries ++ [(S ++ "_" ++ ts, tree)]⟩ S).map
        Backup.name).count (S ++ "_" ++ ts) = 1 := by
      rw [(listing_names_perm ⟨store.entries ++ [(S ++ "_" ++ ts, tree)]⟩ S).count_eq]
      rw [show (⟨store.entries ++ [(S ++ "_" ++ ts, tree)]⟩ : BackupStore).entries
        = store.entries ++ [(S ++ "_" ++ ts, tree)] from rfl]
      rw [List.map_append, List.filter_append, List.count_append]
      have h0 : ((store.entries.map Prod.fst).filter
          (fun item => startswith S item)).count (S ++ "_" ++ ts) = 0 := by
        rw [List.count_eq_zero]
        intro hmem
        exact hfresh (List.mem_of_mem_filter hmem)
      rw [h0]
      simp [hpre]
    have hnotR : (S ++ "_" ++ ts)
        ∉ ((list_backups ⟨store.entries ++ [(S ++ "_" ++ ts, tree)]⟩ S).drop 5).map
            Backup.name := by
      intro hmem
      have hsplit : (list_backups ⟨store.entries ++ [(S ++ "_" ++ ts, tree)]⟩ S).map
          Backup.name
        = ((list_backups ⟨store.entries ++ [(S ++ "_" ++ ts, tree)]⟩ S).take 5).map
            Backup.name
          ++ ((list_backups ⟨store.entries ++ [(S ++ "_" ++ ts, tree)]⟩ S).drop 5).map
            Backup.name := by
        rw [← List.map_append, List.take_append_drop]
      rw [hsplit, List.count_append] at hcount
      have h1 : 0 < (((list_backups ⟨store.entries ++ [(S ++ "_" ++ ts, tree)]⟩ S).take
          5).map Backup.name).count (S ++ "_" ++ ts) := List.count_pos_iff.mpr hsurv
      have h2 : 0 < (((list_backups ⟨store.entries ++ [(S ++ "_" ++ ts, tree)]⟩ S).drop
          5).map Backup.name).count (S ++ "_" ++ ts) := List.count_pos_iff.mpr hmem
      omega
    have hshape : cleanup_old_backups ⟨store.entries ++ [(S ++ "_" ++ ts, tree)]⟩ S 5
        = ⟨(store.entries ++ [(S ++ "_" ++ ts, tree)]).filter
            (fun e => !((((list_backups ⟨store.entries ++ [(S ++ "_" ++ ts, tree)]⟩
              S).drop 5).map Backup.name).contains e.1))⟩ := by
      simp [cleanup_old_backups, hlen]
    rw [hclean, hshape]
    apply rollback_finds
    · rw [mem_listing_names]
      constructor
      · rw [show (⟨(store.entries ++ [(S ++ "_" ++ ts, tree)]).filter
            (fun e => !((((list_backups ⟨store.entries ++ [(S ++ "_" ++ ts, tree)]⟩
              S).drop 5).map Backup.name).contains e.1))⟩ : BackupStore).entries
          = (store.entries ++ [(S ++ "_" ++ ts, tree)]).filter
            (fun e => !((((list_backups ⟨store.entries ++ [(S ++ "_" ++ ts, tree)]⟩
              S).drop 5).map Backup.name).contains e.1)) from rfl]
        rw [map_fst_filter_fst (store.entries ++ [(S ++ "_" ++ ts, tree)])
          (fun s => !((((list_backups ⟨store.entries ++ [(S ++ "_" ++ ts, tree)]⟩
            S).drop 5).map Backup.name).contains s))]
        rw [List.mem_filter]
        refine ⟨by simp, by simpa using hnotR⟩
      · exact hpre
    · exact find?_filter_snoc store.entries _ tree _ hfresh (by simpa using hnotR)

/-- C7 witness: the steady-state scenario — site `a` already holds exactly
five backups, the sixth (timestamp `06`, the newest) is created, survives
retention, and rollback to its identifier restores the backed-up tree over a
modified live tree. -/
theorem c7_roundtrip_witness :
    rollback (create_backup Fix.storeA5 "a" Fix.treeOrig "06").1 (some Fix.treeMod) "a"
        (some ("a" ++ "_" ++ "06"))
      = (true, some Fix.treeOrig) :=
  c7_roundtrip Fix.storeA5 "a" Fix.treeOrig "06" (some Fix.treeMod) (by decide) (by decide)


/-! ### C3 -/

theorem run_command_http (pe : String → Bool) (rc : String → Option String → CmdResult)
    (f g : String → HttpOutcome) (nw : String) (c : String) (cwd : Option String)
    (r : Bool) (s : Option Site) :
    run_command ⟨pe, rc, f, nw⟩ c cwd r s = run_command ⟨pe, rc, g, nw⟩ c cwd r s := rfl

theorem run_commands_http (pe : String → Bool) (rc : String → Option String → CmdResult)
    (f g : String → HttpOutcome) (nw : String) (cwd : Option String)
    (r : Bool) (s : Option Site) :
    ∀ cmds : List String,
      run_commands ⟨pe, rc, f, nw⟩ cmds cwd r s = run_commands ⟨pe, rc, g, nw⟩ cmds cwd r s := by
  intro cmds
  induction cmds with
  | nil => rfl
  | cons c rest ih =>
    show (match run_command ⟨pe, rc, f, nw⟩ c cwd r s with
      | (Except.error e, t) => (Except.error e, t)
      | (Except.ok _, t) =>
        let r2 := run_commands ⟨pe, rc, f, nw⟩ rest cwd r s
        (r2.1, t ++ r2.2)) = _
    rw [run_command_http pe rc f g nw c cwd r s, ih]
    rfl

theorem pre_deploy_step_http (pe : String → Bool) (rc : String → Option String → CmdResult)
    (f g : String → HttpOutcome) (nw : String) (site : Site) :
    pre_deploy_step ⟨pe, rc, f, nw⟩ site = pre_deploy_step ⟨pe, rc, g, nw⟩ site := by
  unfold pre_deploy_step
  cases site.pre_deploy with
  | none => rfl
  | some cmds => exact run_commands_http pe rc f g nw _ _ _ cmds

theorem transfer_step_http (pe : String → Bool) (rc : String → Option String → CmdResult)
    (f g : String → HttpOutcome) (nw : String) (site : Site) :
    transfer_step ⟨pe, rc, f, nw⟩ site = transfer_step ⟨pe, rc, g, nw⟩ site := by
  unfold transfer_step
  by_cases h1 : site.deploy_method = "ftp"
  · rw [if_pos h1, if_pos h1]
    rfl
  · rw [if_neg h1, if_neg h1]
    by_cases h2 : site.deploy_method = "ssh"
    · rw [if_pos h2, if_pos h2]
      rfl
    · rw [if_neg h2, if_neg h2]
      by_cases h3 : site.deploy_method = "git"
      · rw [if_pos h3, if_pos h3]
        exact run_commands_http pe rc f g nw _ _ _ _
      · rw [if_neg h3, if_neg h3]

theorem post_deploy_step_http (pe : String → Bool) (rc : String → Option String → CmdResult)
    (f g : String → HttpOutcome) (nw : String) (site : Site) :
    post_deploy_step ⟨pe, rc, f, nw⟩ site = post_deploy_step ⟨pe, rc, g, nw⟩ site := by
  unfold post_deploy_step
  cases site.post_deploy with
  | none => rfl
  | some cmds => exact run_commands_http pe rc f g nw _ _ _ cmds

theorem deploy_core_http (pe : String → Bool) (rc : String → Option String → CmdResult)
    (f g : String → HttpOutcome) (nw : String) (site : Site) :
    deploy_core ⟨pe, rc, f, nw⟩ site = deploy_core ⟨pe, rc, g, nw⟩ site := by
  unfold deploy_core
  rw [pre_deploy_step_http pe rc f g nw site, transfer_step_http pe rc f g nw site,
    post_deploy_step_http pe rc f g nw site]

theorem deploy_site_fst_congr (env1 env2 : Env) (site : Site)
    (hpe : env1.pathExists site.local_path = env2.pathExists site.local_path)
    (hst : (deploy_steps env1 site).1 = (deploy_steps env2 site).1) :
    (deploy_site env1 site).1 = (deploy_site env2 site).1 := by
  unfold deploy_site
  rcases h1 : deploy_steps env1 site with ⟨r1, t1⟩
  rcases h2 : deploy_steps env2 site with ⟨r2, t2⟩
  rw [h1, h2] at hst
  simp only at hst
  subst hst
  rw [hpe]
  by_cases hc : env2.pathExists site.local_path = true
  · rw [if_pos hc, if_pos hc]
    cases r1 <;> rfl
  · rw [if_neg hc, if_neg hc]

/-- C3: the health-check outcome is advisory only.  First conjunct: the
Deployment Result of `deploy_site` is identical under any two environments
that differ only in the HTTP-probe behaviour — UP, DOWN, ERROR or a raised
exception can never change a site's result.  Second conjunct: a site whose
local path exists and whose pre-deploy, transfer and post-deploy steps all
completed without error always ends with status `success`, whatever the
probe returned. -/
theorem c3_health_check_advisory :
    (∀ (pe : String → Bool) (rc : String → Option String → CmdResult)
        (f g : String → HttpOutcome) (nw : String) (site : Site),
      (deploy_site ⟨pe, rc, f, nw⟩ site).1 = (deploy_site ⟨pe, rc, g, nw⟩ site).1) ∧
    (∀ (env : Env) (site : Site), env.pathExists site.local_path = true →
      (deploy_core env site).1 = Except.ok () →
      (deploy_site env site).1 = ⟨site.name, DStatus.success⟩) := by
  constructor
  · intro pe rc f g nw site
    have hs : (deploy_steps ⟨pe, rc, f, nw⟩ site).1 = (deploy_steps ⟨pe, rc, g, nw⟩ site).1 := by
      rw [deploy_steps_fst, deploy_steps_fst, deploy_core_http pe rc f g nw site]
    exact deploy_site_fst_congr ⟨pe, rc, f, nw⟩ ⟨pe, rc, g, nw⟩ site rfl hs
  · intro env site hp hcore
    exact deploy_site_of_steps_ok env site hp (by rw [deploy_steps_fst, hcore])

/-- C3 witness: a concrete successful deployment whose configured health check
returns HTTP 503, still ending in `success`. -/
theorem c3_health_check_advisory_witness :
    (deploy_site Fix.envOk Fix.siteFtp).1 = ⟨"s1", DStatus.success⟩ :=
  c3_health_check_advisory.2 Fix.envOk Fix.siteFtp rfl rfl


end Theorems
